import Mathlib

/-!
Shallow embedding of `src/sysupdate/sysupdated.c` (the systemd-sysupdated
daemon): the job/target lifecycle engine.  Pure data is translated
directly; the event-driven parts (bus method handlers, the notify-socket
dispatcher, the child-exit handler) are modelled as explicit state
transitions on a `Manager` record, with the externally visible effects
(bus replies, `JobRemoved` signals, `Progress` property-change emissions)
returned alongside the successor state.
-/

namespace Sysupdated

/-- errno constants used by the C source (Linux values). -/
def EBUSY : Int := 16

def EINVAL : Int := 22

def EEXIST : Int := 17

def ENOMEM : Int := 12

def ESRCH : Int := 3

/-- Signal numbers used by `job_cancel` (Linux values). -/
def SIGTERM : Nat := 15

def SIGKILL : Nat := 9

/-- Source `TargetClass` from sysupdated.c (image classes plus host/component). -/
inductive TargetClass where
  | machine
  | portable
  | sysext
  | confext
  | host
  | component
deriving DecidableEq, Repr

/-- Source `target_class_table` / `target_class_to_string`. -/
def target_class_to_string : TargetClass → String
  | .machine => "machine"
  | .portable => "portable"
  | .sysext => "sysext"
  | .confext => "confext"
  | .host => "host"
  | .component => "component"

/-- Source `ImageType` (from discover-image.h) as far as sysupdated.c consumes it. -/
inductive ImageType where
  | directory
  | subvolume
  | raw
  | block
deriving DecidableEq, Repr

/-- Source `JobType` from sysupdated.c. -/
inductive JobType where
  | list
  | describe
  | checkNew
  | update
  | vacuum
deriving DecidableEq, Repr

/-- Source `job_type_table` / `job_type_to_string`. -/
def job_type_to_string : JobType → String
  | .list => "list"
  | .describe => "describe"
  | .checkNew => "check-new"
  | .update => "update"
  | .vacuum => "vacuum"

/-- JSON documents as produced by the worker on stdout (`sd_json_variant`). -/
inductive Json where
  | null
  | bool (b : Bool)
  | num (n : Int)
  | str (s : String)
  | arr (elems : List Json)
  | obj (fields : List (String × Json))

/-- Modelled from the spec: `sd_json_variant_by_key` (libsystemd sd-json is
not included under src/).  Key lookup on an object document; returns the
value, or null (`none`) when the document is not an object or the key is
absent. -/
def sd_json_variant_by_key (v : Json) (key : String) : Option Json :=
  match v with
  | .obj fields => (fields.find? (fun p => p.1 == key)).map (·.2)
  | _ => none

/-- Modelled from the spec: `sd_json_variant_unsigned` (sd-json, not under
src/) is total — it returns the integer value of an unsigned variant and 0
for a null pointer or any non-integer variant. -/
def sd_json_variant_unsigned : Option Json → Nat
  | some (.num n) => n.toNat
  | _ => 0

/-- Modelled from the spec: `sd_json_variant_is_null` (sd-json, not under
src/). -/
def sd_json_variant_is_null : Json → Bool
  | .null => true
  | _ => false

/-- Modelled from the spec: `sd_json_variant_string` (sd-json, not under
src/); returns the string value, or a null pointer (`none`) for
non-string variants. -/
def sd_json_variant_string : Json → Option String
  | .str s => some s
  | _ => none

/-- Modelled from the spec: `sd_json_variant_strv` (sd-json, not under
src/); converts an array-of-strings variant, failing with `-EINVAL`
otherwise. -/
def sd_json_variant_strv (v : Json) : Except Int (List String) :=
  match v with
  | .arr elems =>
      elems.foldr
        (fun e acc =>
          match e, acc with
          | .str s, .ok xs => .ok (s :: xs)
          | _, .ok _ => .error (-EINVAL)
          | _, .error e0 => .error e0)
        (.ok [])
  | _ => .error (-EINVAL)

mutual

/-- Modelled from the spec: `sd_json_variant_format` (sd-json, not under
src/) re-serializes a document to a string.  The claims below never
inspect the produced text, only that the `describe` callback replies with
it; any total serializer is adequate. -/
def json_format : Json → String
  | .null => "null"
  | .bool true => "true"
  | .bool false => "false"
  | .num n => toString n
  | .str s => "\"" ++ s ++ "\""
  | .arr elems => "[" ++ json_format_elems elems ++ "]"
  | .obj fields => "\x7b" ++ json_format_fields fields ++ "\x7d"

/-- Comma-separated serialization of array elements. -/
def json_format_elems : List Json → String
  | [] => ""
  | [x] => json_format x
  | x :: y :: xs => json_format x ++ "," ++ json_format_elems (y :: xs)

/-- Comma-separated serialization of object fields. -/
def json_format_fields : List (String × Json) → String
  | [] => ""
  | [(k, v)] => "\"" ++ k ++ "\":" ++ json_format v
  | (k, v) :: y :: xs => "\"" ++ k ++ "\":" ++ json_format v ++ "," ++ json_format_fields (y :: xs)

end

/-- Success payload of a bus reply sent by a completion or detach callback. -/
inductive Reply where
  | strv (xs : List String)
  | str (s : String)
  | uint (n : Nat)
  | updateDetach (version : Option String) (id : Nat) (path : String)
deriving DecidableEq, Repr

/-- Result of running a `JobComplete` callback on the parsed worker output:
the callback either sent a success reply itself, returned a negative
errno (with or without a named bus error set) leaving `job_on_exit` to
send the error reply, or tripped an `assert()` (aborting the process
before any reply). -/
inductive CbResult where
  | replied (r : Reply)
  | failedNamed (name : String)
  | failed (e : Int)
  | assertFailed
deriving DecidableEq, Repr

/-- Source `target_method_list_finish`: `assert(json)`; extract key `"all"`
(missing key is `-EINVAL`); convert to a string array; reply `as`. -/
def target_method_list_finish (json : Option Json) : CbResult :=
  match json with
  | none => .assertFailed
  | some d =>
      match sd_json_variant_by_key d "all" with
      | none => .failed (-EINVAL)
      | some v =>
          match sd_json_variant_strv v with
          | .error e => .failed e
          | .ok versions => .replied (.strv versions)

/-- Source `target_method_describe_finish`: `assert(json)`; re-serialize the whole
document; reply `s`. -/
def target_method_describe_finish (json : Option Json) : CbResult :=
  match json with
  | none => .assertFailed
  | some d => .replied (.str (json_format d))

/-- Source `target_method_check_new_finish`: `assert(json)`; extract key
`"available"` (missing key is `-EINVAL`); null becomes the empty string,
a non-string value is `-EINVAL`; reply `s`. -/
def target_method_check_new_finish (json : Option Json) : CbResult :=
  match json with
  | none => .assertFailed
  | some d =>
      match sd_json_variant_by_key d "available" with
      | none => .failed (-EINVAL)
      | some v =>
          if sd_json_variant_is_null v then .replied (.str "")
          else
            match sd_json_variant_string v with
            | none => .failed (-EINVAL)
            | some s => .replied (.str s)

/-- Source `target_method_update_finished_early`: always answers the RPC with the
distinguished `org.freedesktop.sysupdate1.NoUpdateCandidate` error. -/
def target_method_update_finished_early (_json : Option Json) : CbResult :=
  .failedNamed "org.freedesktop.sysupdate1.NoUpdateCandidate"

/-- Source `target_method_vacuum_finish`: `assert(json)`; reply `u` with
`sd_json_variant_unsigned(sd_json_variant_by_key(json, "removed"))` —
note there is no missing-key check. -/
def target_method_vacuum_finish (json : Option Json) : CbResult :=
  match json with
  | none => .assertFailed
  | some d => .replied (.uint (sd_json_variant_unsigned (sd_json_variant_by_key d "removed")))

/-- The completion callbacks of sysupdated.c, as first-class values so a
`Job` can retain one (`j->complete_cb`). -/
inductive CompleteCb where
  | listFinish
  | describeFinish
  | checkNewFinish
  | updateFinishedEarly
  | vacuumFinish
deriving DecidableEq, Repr

/-- Dispatch a retained completion callback on the parsed worker output. -/
def runCompleteCb : CompleteCb → Option Json → CbResult
  | .listFinish, json => target_method_list_finish json
  | .describeFinish, json => target_method_describe_finish json
  | .checkNewFinish, json => target_method_check_new_finish json
  | .updateFinishedEarly, json => target_method_update_finished_early json
  | .vacuumFinish, json => target_method_vacuum_finish json

/-- The completion callback each bus method installs via `job_new`
(`target_method_list` .. `target_method_vacuum`). -/
def job_complete_cb : JobType → CompleteCb
  | .list => .listFinish
  | .describe => .describeFinish
  | .checkNew => .checkNewFinish
  | .update => .updateFinishedEarly
  | .vacuum => .vacuumFinish

/-- Only `target_method_update` installs a detach callback
(`j->detach_cb = target_method_update_detach`). -/
def job_detach_cb (ty : JobType) : Bool := ty == .update

/-- One `Job` record of sysupdated.c.  The `sd_bus_message *dbus_msg` and
the callback pointers are modelled by whether they are currently set;
`started` records that `job_start` spawned the worker (so a child and a
child-exit handler exist). -/
structure Job where
  id : Nat
  objectPath : String
  type : JobType
  offline : Bool
  version : Option String
  progressPercent : Nat
  statusErrno : Nat
  nCancelled : Nat
  targetId : String
  started : Bool
  hasDbusMsg : Bool
  completeCb : Option CompleteCb
  detachCb : Bool
deriving DecidableEq, Repr

/-- Source `/org/freedesktop/sysupdate1/job/_<id>` computed in `job_new`. -/
def job_object_path (id : Nat) : String :=
  "/org/freedesktop/sysupdate1/job/_" ++ toString id

/-- Helper for `safe_atou`: fold decimal digits, rejecting non-digits. -/
def safe_atou_loop : List Char → Nat → Option Nat
  | [], acc => some acc
  | c :: cs, acc =>
      if c.isDigit then safe_atou_loop cs (acc * 10 + (c.toNat - 48)) else none

/-- Modelled from the spec: `safe_atou` (src/basic/parse-util.c, not under
src/) — parse a non-empty decimal unsigned integer, rejecting anything
unparseable. -/
def safe_atou (s : String) : Option Nat :=
  match s.data with
  | [] => none
  | c :: cs => safe_atou_loop (c :: cs) 0

/-- Modelled from the spec: `parse_errno` (src/basic/errno-util.h, not
under src/) — parse an errno value, rejecting malformed or out-of-range
input (valid errno numbers are 0..4095). -/
def parse_errno (s : String) : Option Nat :=
  match safe_atou s with
  | none => none
  | some n => if n ≤ 4095 then some n else none

/-- Source `job_on_version`: overwrite the job's version string. -/
def job_on_version (j : Job) (version : String) : Job :=
  { j with version := some version }

/-- Source `job_on_errno`: record the worker-reported errno, rejecting invalid
values with a warning. -/
def job_on_errno (j : Job) (buf : String) : Job :=
  match parse_errno buf with
  | none => j
  | some e => { j with statusErrno := e }

/-- Source `job_on_progress`: accept an integer in [0,100]; on acceptance set the
job's progress and emit a `Progress` property-change notification on the
job's object path (the second component carries the path of that
emission); otherwise warn and leave everything unchanged. -/
def job_on_progress (j : Job) (buf : String) : Job × Option String :=
  match safe_atou buf with
  | none => (j, none)
  | some progress =>
      if progress > 100 then (j, none)
      else ({ j with progressPercent := progress }, some j.objectPath)

/-- Outcome of `job_on_ready`. -/
inductive ReadyOutcome where
  | ignored
  | detached (r : Reply)
  | assertFailed
deriving DecidableEq, Repr

/-- Source `target_method_update_detach`: reply `(version, id, object_path)` to
the retained RPC message. -/
def target_method_update_detach (j : Job) : Reply :=
  .updateDetach j.version j.id j.objectPath

/-- Source `job_on_ready`: without a detach callback this is a no-op; otherwise
`assert(j->dbus_msg)`, take the retained message, clear the completion
callback and invoke the detach callback (which replies to the caller). -/
def job_on_ready (j : Job) : Job × ReadyOutcome :=
  if !j.detachCb then (j, .ignored)
  else if !j.hasDbusMsg then (j, .assertFailed)
  else ({ j with hasDbusMsg := false, completeCb := none },
        .detached (target_method_update_detach j))

/-- Source `job_cancel`: send SIGTERM while fewer than three cancellations have
been recorded, SIGKILL from the fourth request on; bump the counter.  The
second component is the signal number delivered to the child. -/
def job_cancel (j : Job) : Job × Nat :=
  ({ j with nCancelled := j.nCancelled + 1 },
   if j.nCancelled < 3 then SIGTERM else SIGKILL)

/-- Signals delivered by `n` consecutive (authorized) `Cancel` requests. -/
def cancelSignals (j : Job) : Nat → List Nat
  | 0 => []
  | n + 1 => (job_cancel j).2 :: cancelSignals (job_cancel j).1 n

/-- The child's captured stdout, as consumed at exit: zero-byte, a parsed
document, or unparseable (with the parse errno). -/
inductive ChildOutput where
  | empty
  | document (v : Json)
  | unparseable (e : Int)

/-- Source `job_parse_child_output`: a zero-byte stdout is accepted (warned about
and "ignored") and leaves the output document null; otherwise parse. -/
def job_parse_child_output : ChildOutput → Except Int (Option Json)
  | .empty => .ok none
  | .document v => .ok (some v)
  | .unparseable e => .error e

/-- Source `siginfo_t` as far as `job_on_exit` consumes it: `si_code` is
`CLD_EXITED`, `CLD_KILLED` or `CLD_DUMPED`, and `si_status` is the exit
code (exited) or the killing signal number (killed/dumped). -/
inductive SiCode where
  | exited
  | killed
  | dumped
deriving DecidableEq, Repr

structure SiInfo where
  code : SiCode
  status : Nat
deriving DecidableEq, Repr

/-- Is an update or vacuum job (`IN_SET(j->type, JOB_UPDATE, JOB_VACUUM)`). -/
def jobIsUV (ty : JobType) : Bool := ty == .update || ty == .vacuum

/-- The bus error `job_on_exit` computes before dispatching, if any. -/
inductive ExitError where
  | signal (sig : Nat)
  | errno (e : Nat)
  | exitCode (c : Nat)
  | parseFailure (e : Int)
deriving DecidableEq, Repr

/-- The error-computation prelude of `job_on_exit`: abnormal termination,
worker-reported errno or generic exit-code failure, or stdout parsing;
also yields the parsed document (null for empty stdout). -/
def job_exit_error (j : Job) (si : SiInfo) (out : ChildOutput) :
    Option ExitError × Option Json :=
  if si.code ≠ .exited then (some (.signal si.status), none)
  else if si.status ≠ 0 then
    if j.statusErrno ≠ 0 then (some (.errno j.statusErrno), none)
    else (some (.exitCode si.status), none)
  else
    match job_parse_child_output out with
    | .error e => (some (.parseFailure e), none)
    | .ok doc => (none, doc)

/-- The status argument of the `JobRemoved` signal:
`j->status_errno != 0 ? -j->status_errno : si->si_status`. -/
def job_removed_status (j : Job) (si : SiInfo) : Int :=
  if j.statusErrno ≠ 0 then -(j.statusErrno : Int) else (si.status : Int)

/-- The single reply `job_on_exit` sends on the retained RPC message. -/
inductive ExitReply where
  | methodError (e : ExitError)
  | cbSuccess (r : Reply)
  | cbError
deriving DecidableEq, Repr

/-- Externally visible effects of one `job_on_exit` invocation. -/
structure ExitEffects where
  jobRemoved : Option (Nat × String × Int)
  reply : Option ExitReply
  aborted : Bool
deriving DecidableEq, Repr

/-- The reply part of `job_on_exit`: if both the RPC message and the
completion callback are still retained, exactly one reply is sent — the
bus error if one was computed, otherwise whatever the completion callback
produces (its own success reply, or an errno reply when it fails; an
`assert()` failure inside the callback aborts — second component —
before any reply). -/
def job_exit_reply (j : Job) (si : SiInfo) (out : ChildOutput) :
    Option ExitReply × Bool :=
  if j.hasDbusMsg then
    match j.completeCb with
    | none => (none, false)
    | some cb =>
        match (job_exit_error j si out).1 with
        | some e => (some (.methodError e), false)
        | none =>
            match runCompleteCb cb (job_exit_error j si out).2 with
            | .replied r => (some (.cbSuccess r), false)
            | .failedNamed _ => (some .cbError, false)
            | .failed _ => (some .cbError, false)
            | .assertFailed => (none, true)
  else (none, false)

/-- Source `job_on_exit`, effects part: compute the error/document; emit
`JobRemoved` iff a detach callback is set; then reply per
`job_exit_reply`. -/
def job_on_exit_effects (j : Job) (si : SiInfo) (out : ChildOutput) : ExitEffects :=
  { jobRemoved :=
      if j.detachCb then some (j.id, j.objectPath, job_removed_status j si) else none,
    reply := (job_exit_reply j si out).1,
    aborted := (job_exit_reply j si out).2 }

/-- One `Target` record of sysupdated.c. -/
structure Target where
  id : String
  cls : TargetClass
  name : String
  path : String
  imageType : Option ImageType
  busy : Bool
deriving DecidableEq, Repr

/-- The `id` computed in `target_new`: literal `host` for the host class,
`class:name` otherwise. -/
def target_id (cls : TargetClass) (name : String) : String :=
  if cls = .host then "host" else target_class_to_string cls ++ ":" ++ name

/-- The manager state the claims range over: the job-id counter and the
two registries (`m->last_job_id`, `m->jobs`, `m->targets`). -/
structure Manager where
  lastJobId : Nat
  jobs : List Job
  targets : List Target
deriving DecidableEq, Repr

/-- Daemon start-up state: empty registries, `last_job_id = 0`. -/
def Manager.init : Manager := { lastJobId := 0, jobs := [], targets := [] }

def Manager.findJob (m : Manager) (id : Nat) : Option Job :=
  m.jobs.find? (fun j => j.id == id)

def Manager.findTarget (m : Manager) (tid : String) : Option Target :=
  m.targets.find? (fun t => t.id == tid)

def Manager.updateJob (m : Manager) (id : Nat) (f : Job → Job) : Manager :=
  { m with jobs := m.jobs.map (fun j => if j.id == id then f j else j) }

def Manager.updateTarget (m : Manager) (tid : String) (f : Target → Target) : Manager :=
  { m with targets := m.targets.map (fun t => if t.id == tid then f t else t) }

/-- Source `job_free`: drop the job from the id-keyed registry (`hashmap_remove`);
neither `last_job_id` nor the target's busy flag is touched. -/
def Manager.removeJob (m : Manager) (id : Nat) : Manager :=
  { m with jobs := m.jobs.filter (fun j => !(j.id == id)) }

/-- Source `target_new`: allocate a target (busy = false, image type invalid),
compute its id and insert it into the registry; `hashmap_ensure_put`
fails with `-EEXIST` on a duplicate id. -/
def target_new (m : Manager) (cls : TargetClass) (name path : String) :
    Except Int (Manager × Target) :=
  let t : Target :=
    { id := target_id cls name, cls := cls, name := name, path := path,
      imageType := none, busy := false }
  if m.targets.any (fun t0 => t0.id == t.id) then .error (-EEXIST)
  else .ok ({ m with targets := m.targets ++ [t] }, t)

/-- Source `job_new`: allocate a job with id `last_job_id + 1`, compute the object
path, retain the RPC message and the completion callback, insert into the
registry and bump the counter. -/
def job_new (m : Manager) (ty : JobType) (tid : String) (cb : CompleteCb) :
    Manager × Job :=
  let j : Job :=
    { id := m.lastJobId + 1, objectPath := job_object_path (m.lastJobId + 1),
      type := ty, offline := false, version := none, progressPercent := 0,
      statusErrno := 0, nCancelled := 0, targetId := tid, started := false,
      hasDbusMsg := true, completeCb := some cb, detachCb := false }
  ({ m with jobs := m.jobs ++ [j], lastJobId := j.id }, j)

/-- Source `job_start`: for update and vacuum jobs a busy target fails with
`-EBUSY` before anything is spawned; spawn failures (memfd, fork, event
source — summarized by `spawnOk`) also fail before the busy flag is set;
on success the worker is running (`started`) and, for update and vacuum,
the target is marked busy. -/
def job_start (m : Manager) (id : Nat) (spawnOk : Bool) : Except Int Manager :=
  match m.findJob id with
  | none => .error (-ESRCH)
  | some j =>
      match m.findTarget j.targetId with
      | none => .error (-ESRCH)
      | some t =>
          if jobIsUV j.type && t.busy then .error (-EBUSY)
          else if !spawnOk then .error (-ENOMEM)
          else
            let m1 := m.updateJob id (fun j0 => { j0 with started := true })
            .ok (if jobIsUV j.type then
                   m1.updateTarget j.targetId (fun t0 => { t0 with busy := true })
                 else m1)

/-- The shared job-creation sequence of the five bus method handlers
(`target_method_list` .. `target_method_vacuum`): `job_new` with the
verb's completion callback, set the per-verb fields (detach callback for
update only, offline flag, version), then `job_start`; on start failure
the RPC is answered with that error and the `_cleanup_` handler frees the
freshly created job. -/
def method_start_job (m : Manager) (ty : JobType) (tid : String)
    (offline : Bool) (version : Option String) (spawnOk : Bool) :
    Manager × Except Int Nat :=
  match m.findTarget tid with
  | none => (m, .error (-ESRCH))
  | some _ =>
      let p := job_new m ty tid (job_complete_cb ty)
      let m1 := p.1.updateJob p.2.id
        (fun j0 => { j0 with detachCb := job_detach_cb ty, offline := offline,
                             version := version })
      match job_start m1 p.2.id spawnOk with
      | .error e => (m1.removeJob p.2.id, .error e)
      | .ok m2 => (m2, .ok p.2.id)

/-- One notify datagram, after `find_line_startswith` extracted the four
recognized keys (`X_SYSUPDATE_VERSION`, `X_SYSUPDATE_PROGRESS`, `ERRNO`,
`READY=1`). -/
structure Datagram where
  version : Option String
  progress : Option String
  errnoStr : Option String
  ready : Bool
deriving DecidableEq, Repr

/-- Source `manager_on_notify`, after credentials were validated and the sender
pid was matched to job `id`: apply version, progress and errno updates in
order, readiness last (it may detach the job).  Datagrams whose pid
matches no live job are discarded. -/
def manager_on_notify (m : Manager) (id : Nat) (d : Datagram) : Manager :=
  match m.findJob id with
  | none => m
  | some j =>
      if !j.started then m
      else
        let m1 := match d.version with
          | some v => m.updateJob id (fun j0 => job_on_version j0 v)
          | none => m
        let m2 := match d.progress with
          | some p => m1.updateJob id (fun j0 => (job_on_progress j0 p).1)
          | none => m1
        let m3 := match d.errnoStr with
          | some e => m2.updateJob id (fun j0 => job_on_errno j0 e)
          | none => m2
        if d.ready then m3.updateJob id (fun j0 => (job_on_ready j0).1) else m3

/-- Source `manager_check_idle`: once the job registry is empty, clear the target
registry (release the cache). -/
def manager_check_idle (m : Manager) : Manager :=
  if m.jobs.isEmpty then { m with targets := [] } else m

/-- Source `job_on_exit` as a manager transition: clear the busy flag of the
job's target for update/vacuum, compute the externally visible effects,
free the job and run the idle check.  Exit events for unknown or
never-started jobs cannot occur (no child exists) and are no-ops. -/
def manager_on_exit (m : Manager) (id : Nat) (si : SiInfo) (out : ChildOutput) :
    Manager × Option ExitEffects :=
  match m.findJob id with
  | none => (m, none)
  | some j =>
      if !j.started then (m, none)
      else
        let eff := job_on_exit_effects j si out
        let m1 :=
          if jobIsUV j.type then
            m.updateTarget j.targetId (fun t0 => { t0 with busy := false })
          else m
        (manager_check_idle (m1.removeJob id), some eff)

/-- Source `job_method_cancel`, after authorization: `job_cancel` bumps the
counter and signals the child (which exists only for started jobs). -/
def manager_cancel (m : Manager) (id : Nat) : Manager :=
  match m.findJob id with
  | none => m
  | some j =>
      if !j.started then m
      else m.updateJob id (fun j0 => (job_cancel j0).1)

/-- One discovered image as `manager_enumerate_image_class` consumes it:
identity and type from `image_discover`, plus the outcome of the worker
`components` query `target_list_components` runs for it (`.ok have` is
the `default` boolean of the response). -/
structure Image where
  name : String
  path : String
  itype : ImageType
  isHost : Bool
  query : Except Int Bool

/-- Source `manager_enumerate_image_class`, the per-image loop: skip host images;
create a target (recording the image type); run the worker `components`
query; when the image has no default component, log "Skipping ..." and
continue — the loop body holds a plain pointer and the target created
above stays in the registry in every continue path. -/
def manager_enumerate_image_class (m : Manager) (cls : TargetClass) :
    List Image → Except Int Manager
  | [] => .ok m
  | img :: rest =>
      if img.isHost then manager_enumerate_image_class m cls rest
      else
        match target_new m cls img.name img.path with
        | .error e => .error e
        | .ok (m1, t) =>
            let m2 := m1.updateTarget t.id (fun t0 => { t0 with imageType := some img.itype })
            match img.query with
            | .error e => .error e
            | .ok _haveDefault => manager_enumerate_image_class m2 cls rest

/-- The events driving the manager: target enumeration inserts
(`target_new` during `manager_enumerate_targets`), the five job-creating
bus methods, notify datagrams, authorized cancel requests, and child
exits. -/
inductive Event where
  | addTarget (cls : TargetClass) (name path : String)
  | startJob (ty : JobType) (tid : String) (offline : Bool) (version : Option String) (spawnOk : Bool)
  | notify (id : Nat) (d : Datagram)
  | cancel (id : Nat)
  | childExit (id : Nat) (si : SiInfo) (out : ChildOutput)

/-- The manager-state transition of one event (effects projected away). -/
def step (m : Manager) : Event → Manager
  | .addTarget cls name path =>
      match target_new m cls name path with
      | .error _ => m
      | .ok (m1, _) => m1
  | .startJob ty tid offline version spawnOk =>
      (method_start_job m ty tid offline version spawnOk).1
  | .notify id d => manager_on_notify m id d
  | .cancel id => manager_cancel m id
  | .childExit id si out => (manager_on_exit m id si out).1

/-- Run the daemon from start-up through a sequence of events. -/
def run (es : List Event) : Manager := es.foldl step Manager.init

/-- An update-or-vacuum job of target `tid` whose worker is running. -/
def uvPred (tid : String) (j : Job) : Bool :=
  j.targetId == tid && jobIsUV j.type && j.started

/-- The in-flight update/vacuum jobs owned by target `tid`. -/
def uvInFlightFor (m : Manager) (tid : String) : List Job :=
  m.jobs.filter (uvPred tid)

/-- The state invariant of the daemon, maintained by every event. -/
structure Inv (m : Manager) : Prop where
  id_le : ∀ j ∈ m.jobs, j.id ≤ m.lastJobId
  path_eq : ∀ j ∈ m.jobs, j.objectPath = job_object_path j.id
  started_eq : ∀ j ∈ m.jobs, j.started = true
  detach_eq : ∀ j ∈ m.jobs, j.detachCb = job_detach_cb j.type
  cb_inv : ∀ j ∈ m.jobs,
      (j.hasDbusMsg = true ∧ j.completeCb = some (job_complete_cb j.type))
      ∨ (j.type = .update ∧ j.hasDbusMsg = false ∧ j.completeCb = none)
  jobs_nodup : (m.jobs.map Job.id).Nodup
  targets_nodup : (m.targets.map Target.id).Nodup
  target_exists : ∀ j ∈ m.jobs, ∃ t ∈ m.targets, t.id = j.targetId
  busy_iff : ∀ t ∈ m.targets, (t.busy = true ↔ uvInFlightFor m t.id ≠ [])
  uv_le_one : ∀ t ∈ m.targets, (uvInFlightFor m t.id).length ≤ 1

theorem inv_init : Inv Manager.init := by
  constructor <;> simp [Manager.init, uvInFlightFor]

theorem filter_map_of_pred_eq {α : Type _} (p : α → Bool) (g : α → α) (l : List α)
    (h : ∀ a ∈ l, p (g a) = p a) : (l.map g).filter p = (l.filter p).map g := by
  induction l with
  | nil => rfl
  | cons a t ih =>
      simp only [List.map_cons, List.filter_cons, h a (by simp)]
      cases hpa : p a <;>
        simp [hpa, ih (fun a ha => h a (by simp [ha]))]

theorem map_update_of_forall_ne (l : List Job) (id : Nat) (f : Job → Job)
    (h : ∀ j ∈ l, j.id ≠ id) :
    l.map (fun j => if j.id == id then f j else j) = l := by
  induction l with
  | nil => rfl
  | cons a t ih =>
      have ha : (a.id == id) = false := beq_eq_false_iff_ne.mpr (h a (by simp))
      simp only [List.map_cons, ha, Bool.false_eq_true, if_false]
      rw [ih (fun j hj => h j (by simp [hj]))]

theorem find?_append_right (l : List Job) (x : Job) (p : Job → Bool)
    (h : ∀ j ∈ l, p j = false) :
    (l ++ [x]).find? p = if p x then some x else none := by
  induction l with
  | nil =>
      simp only [List.nil_append, List.find?]
      cases hx : p x <;> simp [hx]
  | cons a t ih =>
      have ha : p a = false := h a (by simp)
      simp only [List.cons_append, List.find?, ha]
      exact ih (fun j hj => h j (by simp [hj]))

theorem filter_append_of_forall (l : List Job) (x : Job) (p : Job → Bool)
    (h : ∀ j ∈ l, p j = true) :
    (l ++ [x]).filter p = l ++ (if p x then [x] else []) := by
  rw [List.filter_append, List.filter_eq_self.mpr h]
  cases hx : p x <;> simp [List.filter, hx]

theorem mem_singleton_of_length_le_one {α : Type _} {l : List α} {a : α}
    (h : l.length ≤ 1) (ha : a ∈ l) : l = [a] := by
  match l with
  | [] => cases ha
  | [x] => simp at ha; subst ha; rfl
  | x :: y :: t => simp at h

theorem uvInFlightFor_targets_irrel (m : Manager) (ts : List Target) (tid : String) :
    uvInFlightFor { m with targets := ts } tid = uvInFlightFor m tid := rfl

theorem uvInFlightFor_mk (n : Nat) (js : List Job) (ts : List Target) (tid : String) :
    uvInFlightFor { lastJobId := n, jobs := js, targets := ts } tid
      = js.filter (uvPred tid) := rfl

theorem inv_addTarget (m : Manager) (h : Inv m) (cls : TargetClass) (nm pth : String) :
    Inv (step m (.addTarget cls nm pth)) := by
  show Inv (match target_new m cls nm pth with | .error _ => m | .ok (m1, _) => m1)
  unfold target_new
  by_cases hdup :
      (m.targets.any (fun t0 => t0.id == target_id cls nm)) = true
  · simp only [hdup, if_true]
    exact h
  · simp only [hdup, Bool.false_eq_true, if_false]
    have hfresh : ∀ t0 ∈ m.targets, t0.id ≠ target_id cls nm := by
      intro t0 ht0 hcontra
      exact hdup (List.any_eq_true.mpr ⟨t0, ht0, beq_iff_eq.mpr hcontra⟩)
    have hnojob : ∀ j ∈ m.jobs, j.targetId ≠ target_id cls nm := by
      intro j hj hcontra
      obtain ⟨t0, ht0, hid0⟩ := h.target_exists j hj
      exact hfresh t0 ht0 (hid0.trans hcontra)
    have hempty : m.jobs.filter (uvPred (target_id cls nm)) = [] := by
      refine List.filter_eq_nil_iff.mpr (fun j hj => ?_)
      simp only [uvPred, Bool.and_eq_true, beq_iff_eq, not_and]
      intro hand
      exact absurd hand.1 (hnojob j hj)
    refine ⟨h.id_le, h.path_eq, h.started_eq, h.detach_eq, h.cb_inv, h.jobs_nodup,
            ?_, ?_, ?_, ?_⟩
    · simp only [List.map_append, List.map_cons, List.map_nil]
      rw [List.nodup_append]
      refine ⟨h.targets_nodup, List.nodup_singleton _, ?_⟩
      intro x hx hx'
      simp only [List.mem_singleton] at hx'
      obtain ⟨t0, ht0, hid0⟩ := List.mem_map.mp hx
      exact hfresh t0 ht0 (hid0.trans hx')
    · intro j hj
      obtain ⟨t0, ht0, hid0⟩ := h.target_exists j hj
      exact ⟨t0, List.mem_append_left _ ht0, hid0⟩
    · intro t ht
      rcases List.mem_append.mp ht with ht | ht
      · exact h.busy_iff t ht
      · simp only [List.mem_singleton] at ht
        subst ht
        simp [uvInFlightFor_mk, hempty]
    · intro t ht
      rcases List.mem_append.mp ht with ht | ht
      · exact h.uv_le_one t ht
      · simp only [List.mem_singleton] at ht
        subst ht
        simp [uvInFlightFor_mk, hempty]

theorem inv_updateJob (m : Manager) (id : Nat) (f : Job → Job) (h : Inv m)
    (hid : ∀ j, (f j).id = j.id)
    (hpath : ∀ j, (f j).objectPath = j.objectPath)
    (hty : ∀ j, (f j).type = j.type)
    (htid : ∀ j, (f j).targetId = j.targetId)
    (hst : ∀ j, (f j).started = j.started)
    (hdet : ∀ j, (f j).detachCb = j.detachCb)
    (hcb : ∀ j ∈ m.jobs,
        ((j.hasDbusMsg = true ∧ j.completeCb = some (job_complete_cb j.type))
          ∨ (j.type = .update ∧ j.hasDbusMsg = false ∧ j.completeCb = none)) →
        j.detachCb = job_detach_cb j.type →
        (((f j).hasDbusMsg = true ∧ (f j).completeCb = some (job_complete_cb (f j).type))
          ∨ ((f j).type = .update ∧ (f j).hasDbusMsg = false ∧ (f j).completeCb = none))) :
    Inv (m.updateJob id f) := by
  set g : Job → Job := fun j => if j.id == id then f j else j with hg
  have hgid : ∀ j, (g j).id = j.id := by
    intro j; simp only [hg]; split <;> simp [hid]
  have hgpath : ∀ j, (g j).objectPath = j.objectPath := by
    intro j; simp only [hg]; split <;> simp [hpath]
  have hgty : ∀ j, (g j).type = j.type := by
    intro j; simp only [hg]; split <;> simp [hty]
  have hgtid : ∀ j, (g j).targetId = j.targetId := by
    intro j; simp only [hg]; split <;> simp [htid]
  have hgst : ∀ j, (g j).started = j.started := by
    intro j; simp only [hg]; split <;> simp [hst]
  have hgdet : ∀ j, (g j).detachCb = j.detachCb := by
    intro j; simp only [hg]; split <;> simp [hdet]
  have hjobs : (m.updateJob id f).jobs = m.jobs.map g := rfl
  have huv : ∀ tid, uvInFlightFor (m.updateJob id f) tid = (uvInFlightFor m tid).map g := by
    intro tid
    show (m.jobs.map g).filter (uvPred tid) = (m.jobs.filter (uvPred tid)).map g
    refine filter_map_of_pred_eq _ _ _ (fun a _ => ?_)
    simp only [uvPred, hgtid, hgty, hgst]
  have hmem : ∀ j' ∈ (m.updateJob id f).jobs, ∃ j ∈ m.jobs, j' = g j := by
    intro j' hj'
    rw [hjobs] at hj'
    obtain ⟨j, hj, hgj⟩ := List.mem_map.mp hj'
    exact ⟨j, hj, hgj.symm⟩
  refine ⟨?_, ?_, ?_, ?_, ?_, ?_, h.targets_nodup, ?_, ?_, ?_⟩
  · intro j' hj'
    obtain ⟨j, hj, rfl⟩ := hmem j' hj'
    rw [hgid]
    exact h.id_le j hj
  · intro j' hj'
    obtain ⟨j, hj, rfl⟩ := hmem j' hj'
    rw [hgid, hgpath]
    exact h.path_eq j hj
  · intro j' hj'
    obtain ⟨j, hj, rfl⟩ := hmem j' hj'
    rw [hgst]
    exact h.started_eq j hj
  · intro j' hj'
    obtain ⟨j, hj, rfl⟩ := hmem j' hj'
    rw [hgdet, hgty]
    exact h.detach_eq j hj
  · intro j' hj'
    obtain ⟨j, hj, rfl⟩ := hmem j' hj'
    simp only [hg]
    split
    · exact hcb j hj (h.cb_inv j hj) (h.detach_eq j hj)
    · exact h.cb_inv j hj
  · rw [hjobs, List.map_map]
    have : (Job.id ∘ g) = Job.id := funext hgid
    rw [this]
    exact h.jobs_nodup
  · intro j' hj'
    obtain ⟨j, hj, rfl⟩ := hmem j' hj'
    rw [hgtid]
    exact h.target_exists j hj
  · intro t ht
    have ht' : t ∈ m.targets := ht
    rw [huv]
    have hbi := h.busy_iff t ht'
    constructor
    · intro hb hnil
      exact (hbi.mp hb) (List.map_eq_nil_iff.mp hnil)
    · intro hne
      apply hbi.mpr
      intro hnil
      apply hne
      rw [hnil, List.map_nil]
  · intro t ht
    have ht' : t ∈ m.targets := ht
    rw [huv, List.length_map]
    exact h.uv_le_one t ht'

theorem inv_updateJob_version (m : Manager) (h : Inv m) (id : Nat) (v : String) :
    Inv (m.updateJob id (fun j0 => job_on_version j0 v)) := by
  refine inv_updateJob m id _ h (fun j => rfl) (fun j => rfl) (fun j => rfl)
    (fun j => rfl) (fun j => rfl) (fun j => rfl) ?_
  intro j _ hold _
  simpa [job_on_version] using hold

theorem inv_updateJob_progress (m : Manager) (h : Inv m) (id : Nat) (p : String) :
    Inv (m.updateJob id (fun j0 => (job_on_progress j0 p).1)) := by
  have hsplit : ∀ j : Job, (job_on_progress j p).1 = j ∨
      ∃ n, (job_on_progress j p).1 = { j with progressPercent := n } := by
    intro j
    unfold job_on_progress
    rcases safe_atou p with _ | n
    · exact Or.inl rfl
    · dsimp only
      split
      · exact Or.inl rfl
      · exact Or.inr ⟨n, rfl⟩
  refine inv_updateJob m id _ h ?_ ?_ ?_ ?_ ?_ ?_ ?_
  · intro j; rcases hsplit j with hj | ⟨n, hj⟩ <;> rw [hj]
  · intro j; rcases hsplit j with hj | ⟨n, hj⟩ <;> rw [hj]
  · intro j; rcases hsplit j with hj | ⟨n, hj⟩ <;> rw [hj]
  · intro j; rcases hsplit j with hj | ⟨n, hj⟩ <;> rw [hj]
  · intro j; rcases hsplit j with hj | ⟨n, hj⟩ <;> rw [hj]
  · intro j; rcases hsplit j with hj | ⟨n, hj⟩ <;> rw [hj]
  · intro j _ hold _
    rcases hsplit j with hj | ⟨n, hj⟩ <;> rw [hj] <;> simpa using hold

theorem inv_updateJob_errno (m : Manager) (h : Inv m) (id : Nat) (e : String) :
    Inv (m.updateJob id (fun j0 => job_on_errno j0 e)) := by
  have hsplit : ∀ j : Job, job_on_errno j e = j ∨
      ∃ n, job_on_errno j e = { j with statusErrno := n } := by
    intro j
    unfold job_on_errno
    rcases parse_errno e with _ | n
    · exact Or.inl rfl
    · exact Or.inr ⟨n, rfl⟩
  refine inv_updateJob m id _ h ?_ ?_ ?_ ?_ ?_ ?_ ?_
  · intro j; rcases hsplit j with hj | ⟨n, hj⟩ <;> rw [hj]
  · intro j; rcases hsplit j with hj | ⟨n, hj⟩ <;> rw [hj]
  · intro j; rcases hsplit j with hj | ⟨n, hj⟩ <;> rw [hj]
  · intro j; rcases hsplit j with hj | ⟨n, hj⟩ <;> rw [hj]
  · intro j; rcases hsplit j with hj | ⟨n, hj⟩ <;> rw [hj]
  · intro j; rcases hsplit j with hj | ⟨n, hj⟩ <;> rw [hj]
  · intro j _ hold _
    rcases hsplit j with hj | ⟨n, hj⟩ <;> rw [hj] <;> simpa using hold

theorem inv_updateJob_ready (m : Manager) (h : Inv m) (id : Nat) :
    Inv (m.updateJob id (fun j0 => (job_on_ready j0).1)) := by
  have hsplit : ∀ j : Job, (job_on_ready j).1 = j ∨
      (j.detachCb = true ∧
        (job_on_ready j).1 = { j with hasDbusMsg := false, completeCb := none }) := by
    intro j
    unfold job_on_ready
    split
    · exact Or.inl rfl
    · next hd =>
        split
        · exact Or.inl rfl
        · refine Or.inr ⟨?_, rfl⟩
          revert hd
          cases j.detachCb <;> simp
  refine inv_updateJob m id _ h ?_ ?_ ?_ ?_ ?_ ?_ ?_
  · intro j; rcases hsplit j with hj | ⟨_, hj⟩ <;> rw [hj]
  · intro j; rcases hsplit j with hj | ⟨_, hj⟩ <;> rw [hj]
  · intro j; rcases hsplit j with hj | ⟨_, hj⟩ <;> rw [hj]
  · intro j; rcases hsplit j with hj | ⟨_, hj⟩ <;> rw [hj]
  · intro j; rcases hsplit j with hj | ⟨_, hj⟩ <;> rw [hj]
  · intro j; rcases hsplit j with hj | ⟨_, hj⟩ <;> rw [hj]
  · intro j _ hold hdet
    rcases hsplit j with hj | ⟨hd, hj⟩
    · rw [hj]; exact hold
    · rw [hj]
      refine Or.inr ⟨?_, rfl, rfl⟩
      show j.type = .update
      rw [hd] at hdet
      exact (beq_iff_eq.mp hdet.symm)

theorem inv_notify (m : Manager) (h : Inv m) (id : Nat) (d : Datagram) :
    Inv (manager_on_notify m id d) := by
  unfold manager_on_notify
  cases hf : m.findJob id with
  | none => exact h
  | some j =>
      by_cases hs : (!j.started) = true
      · simp only [hs, if_true]
        exact h
      · simp only [hs, Bool.false_eq_true, if_false]
        have h1 : Inv (match d.version with
            | some v => m.updateJob id (fun j0 => job_on_version j0 v)
            | none => m) := by
          cases d.version with
          | none => exact h
          | some v => exact inv_updateJob_version m h id v
        have h2 : Inv (match d.progress with
            | some p => (match d.version with
                | some v => m.updateJob id (fun j0 => job_on_version j0 v)
                | none => m).updateJob id (fun j0 => (job_on_progress j0 p).1)
            | none => (match d.version with
                | some v => m.updateJob id (fun j0 => job_on_version j0 v)
                | none => m)) := by
          cases d.progress with
          | none => exact h1
          | some p => exact inv_updateJob_progress _ h1 id p
        have h3 : Inv (match d.errnoStr with
            | some e => (match d.progress with
                | some p => (match d.version with
                    | some v => m.updateJob id (fun j0 => job_on_version j0 v)
                    | none => m).updateJob id (fun j0 => (job_on_progress j0 p).1)
                | none => (match d.version with
                    | some v => m.updateJob id (fun j0 => job_on_version j0 v)
                    | none => m)).updateJob id (fun j0 => job_on_errno j0 e)
            | none => (match d.progress with
                | some p => (match d.version with
                    | some v => m.updateJob id (fun j0 => job_on_version j0 v)
                    | none => m).updateJob id (fun j0 => (job_on_progress j0 p).1)
                | none => (match d.version with
                    | some v => m.updateJob id (fun j0 => job_on_version j0 v)
                    | none => m))) := by
          cases d.errnoStr with
          | none => exact h2
          | some e => exact inv_updateJob_errno _ h2 id e
        cases d.ready
        · simpa using h3
        · simp only [if_true]
          exact inv_updateJob_ready _ h3 id

theorem method_start_job_eq (m : Manager) (h : Inv m) (tid : String) (t0 : Target)
    (hft : m.findTarget tid = some t0) (ty : JobType) (offline : Bool)
    (version : Option String) (spawnOk : Bool) :
    method_start_job m ty tid offline version spawnOk =
      if jobIsUV ty && t0.busy then
        ({ m with lastJobId := m.lastJobId + 1 }, Except.error (-EBUSY))
      else if spawnOk = false then
        ({ m with lastJobId := m.lastJobId + 1 }, Except.error (-ENOMEM))
      else
        ({ lastJobId := m.lastJobId + 1,
           jobs := m.jobs ++
             [{ id := m.lastJobId + 1, objectPath := job_object_path (m.lastJobId + 1),
                type := ty, offline := offline, version := version, progressPercent := 0,
                statusErrno := 0, nCancelled := 0, targetId := tid, started := true,
                hasDbusMsg := true, completeCb := some (job_complete_cb ty),
                detachCb := job_detach_cb ty }],
           targets := if jobIsUV ty then
               m.targets.map (fun t => if t.id == tid then { t with busy := true } else t)
             else m.targets },
         Except.ok (m.lastJobId + 1)) := by
  have hne : ∀ j ∈ m.jobs, j.id ≠ m.lastJobId + 1 :=
    fun j hj => Nat.ne_of_lt (Nat.lt_succ_of_le (h.id_le j hj))
  have hup1 : ∀ (f : Job → Job) (x : Job), x.id = m.lastJobId + 1 →
      (List.map (fun j => if j.id == m.lastJobId + 1 then f j else j) (m.jobs ++ [x]))
        = m.jobs ++ [f x] := by
    intro f x hx
    rw [List.map_append, map_update_of_forall_ne _ _ _ hne]
    simp [hx]
  unfold method_start_job
  rw [hft]
  unfold job_new Manager.updateJob
  dsimp only
  rw [hup1 _ _ rfl]
  dsimp only
  unfold job_start Manager.findJob
  rw [find?_append_right _ _ _ (fun j hj => beq_eq_false_iff_ne.mpr (hne j hj))]
  dsimp only
  rw [if_pos (beq_self_eq_true _)]
  dsimp only
  have hft1 : Manager.findTarget
      { lastJobId := m.lastJobId + 1,
        jobs := m.jobs ++
          [{ id := m.lastJobId + 1, objectPath := job_object_path (m.lastJobId + 1),
             type := ty, offline := offline, version := version, progressPercent := 0,
             statusErrno := 0, nCancelled := 0, targetId := tid, started := false,
             hasDbusMsg := true, completeCb := some (job_complete_cb ty),
             detachCb := job_detach_cb ty }],
        targets := m.targets } tid = some t0 := hft
  rw [hft1]
  dsimp only
  by_cases hb : (jobIsUV ty && t0.busy) = true
  · rw [if_pos hb, if_pos hb]
    dsimp only
    unfold Manager.removeJob
    dsimp only
    rw [List.filter_append, List.filter_eq_self.mpr
          (fun j hj => by simpa using beq_eq_false_iff_ne.mpr (hne j hj))]
    simp
  · rw [if_neg hb, if_neg hb]
    cases spawnOk with
    | false =>
        rw [if_pos (show ((!false : Bool)) = true from rfl),
            if_pos (show (false = false) from rfl)]
        dsimp only
        unfold Manager.removeJob
        dsimp only
        rw [List.filter_append, List.filter_eq_self.mpr
              (fun j hj => by simpa using beq_eq_false_iff_ne.mpr (hne j hj))]
        simp
    | true =>
        rw [if_neg (show ¬((!true : Bool) = true) from by simp),
            if_neg (show ¬(true = false) from by simp)]
        dsimp only
        unfold Manager.updateJob Manager.updateTarget
        dsimp only
        rw [hup1 _ _ rfl]
        dsimp only
        by_cases huv : (jobIsUV ty) = true
        · rw [if_pos huv, if_pos huv]
        · rw [if_neg huv, if_neg huv]

theorem inv_bump (m : Manager) (h : Inv m) : Inv { m with lastJobId := m.lastJobId + 1 } := by
  refine ⟨?_, h.path_eq, h.started_eq, h.detach_eq, h.cb_inv, h.jobs_nodup,
          h.targets_nodup, h.target_exists, h.busy_iff, h.uv_le_one⟩
  intro j hj
  exact le_trans (h.id_le j hj) (Nat.le_succ _)

theorem filter_append_single_pos (l : List Job) (x : Job) (p : Job → Bool)
    (hx : p x = true) : (l ++ [x]).filter p = l.filter p ++ [x] := by
  rw [List.filter_append]
  congr 1
  simp [List.filter, hx]

theorem filter_append_single_neg (l : List Job) (x : Job) (p : Job → Bool)
    (hx : p x = false) : (l ++ [x]).filter p = l.filter p := by
  rw [List.filter_append]
  have : [x].filter p = [] := by simp [List.filter, hx]
  rw [this, List.append_nil]

theorem inv_startJob (m : Manager) (h : Inv m) (ty : JobType) (tid : String)
    (offline : Bool) (version : Option String) (spawnOk : Bool) :
    Inv (method_start_job m ty tid offline version spawnOk).1 := by
  cases hft : m.findTarget tid with
  | none =>
      unfold method_start_job
      rw [hft]
      exact h
  | some t0 =>
      have ht0mem : t0 ∈ m.targets := List.mem_of_find?_eq_some hft
      have ht0id : t0.id = tid := by
        have := List.find?_some hft
        exact beq_iff_eq.mp this
      rw [method_start_job_eq m h tid t0 hft ty offline version spawnOk]
      by_cases hb : (jobIsUV ty && t0.busy) = true
      · rw [if_pos hb]
        exact inv_bump m h
      · rw [if_neg hb]
        cases spawnOk with
        | false =>
            rw [if_pos rfl]
            exact inv_bump m h
        | true =>
            rw [if_neg (show ¬(true = false) from by simp)]
            dsimp only
            set j2 : Job :=
              { id := m.lastJobId + 1, objectPath := job_object_path (m.lastJobId + 1),
                type := ty, offline := offline, version := version, progressPercent := 0,
                statusErrno := 0, nCancelled := 0, targetId := tid, started := true,
                hasDbusMsg := true, completeCb := some (job_complete_cb ty),
                detachCb := job_detach_cb ty } with hj2
            have hne : ∀ j ∈ m.jobs, j.id ≠ m.lastJobId + 1 :=
              fun j hj => Nat.ne_of_lt (Nat.lt_succ_of_le (h.id_le j hj))
            have hmemj : ∀ j, j ∈ m.jobs ++ [j2] ↔ (j ∈ m.jobs ∨ j = j2) := by
              intro j
              simp [List.mem_append]
            by_cases huv : (jobIsUV ty) = true
            · -- update/vacuum job: target marked busy
              rw [if_pos huv]
              have hbusy0 : t0.busy = false := by
                cases hb0 : t0.busy
                · rfl
                · exact absurd (by simp [huv, hb0]) hb
              have holdnil : uvInFlightFor m tid = [] := by
                by_contra hcon
                have := (h.busy_iff t0 ht0mem).mpr (by rw [ht0id]; exact hcon)
                rw [hbusy0] at this
                cases this
              have hpj2 : ∀ tid', uvPred tid' j2 = (tid == tid') := by
                intro tid'
                show (((tid == tid') && jobIsUV ty) && true) = (tid == tid')
                rw [huv, Bool.and_true, Bool.and_true]
              refine ⟨?_, ?_, ?_, ?_, ?_, ?_, ?_, ?_, ?_, ?_⟩
              · intro j hj
                rcases (hmemj j).mp hj with hj | rfl
                · exact le_trans (h.id_le j hj) (Nat.le_succ _)
                · exact le_refl _
              · intro j hj
                rcases (hmemj j).mp hj with hj | rfl
                · exact h.path_eq j hj
                · rfl
              · intro j hj
                rcases (hmemj j).mp hj with hj | rfl
                · exact h.started_eq j hj
                · rfl
              · intro j hj
                rcases (hmemj j).mp hj with hj | rfl
                · exact h.detach_eq j hj
                · rfl
              · intro j hj
                rcases (hmemj j).mp hj with hj | rfl
                · exact h.cb_inv j hj
                · exact Or.inl ⟨rfl, rfl⟩
              · show ((m.jobs ++ [j2]).map Job.id).Nodup
                rw [List.map_append, List.map_cons, List.map_nil, List.nodup_append]
                refine ⟨h.jobs_nodup, List.nodup_singleton _, ?_⟩
                intro x hx hx'
                simp only [List.mem_singleton] at hx'
                obtain ⟨j, hj, hid⟩ := List.mem_map.mp hx
                subst hx'
                exact hne j hj hid
              · show ((m.targets.map _).map Target.id).Nodup
                rw [List.map_map]
                have : (Target.id ∘ fun t =>
                    if t.id == tid then { t with busy := true } else t) = Target.id := by
                  funext t
                  simp only [Function.comp]
                  split <;> rfl
                rw [this]
                exact h.targets_nodup
              · intro j hj
                rcases (hmemj j).mp hj with hj | rfl
                · obtain ⟨t, ht, hid⟩ := h.target_exists j hj
                  refine ⟨if t.id == tid then { t with busy := true } else t,
                          List.mem_map.mpr ⟨t, ht, rfl⟩, ?_⟩
                  split <;> simpa using hid
                · refine ⟨if t0.id == tid then { t0 with busy := true } else t0,
                          List.mem_map.mpr ⟨t0, ht0mem, rfl⟩, ?_⟩
                  split <;> simpa using ht0id
              · intro t' ht'
                obtain ⟨t, ht, rfl⟩ := List.mem_map.mp ht'
                by_cases htt : (t.id == tid) = true
                · have tid0 : t.id = tid := beq_iff_eq.mp htt
                  rw [if_pos htt]
                  show true = true ↔ (m.jobs ++ [j2]).filter (uvPred t.id) ≠ []
                  rw [tid0,
                      filter_append_single_pos _ _ _ (by rw [hpj2]; exact beq_self_eq_true _),
                      show m.jobs.filter (uvPred tid) = [] from holdnil]
                  simp
                · rw [if_neg htt]
                  show t.busy = true ↔ (m.jobs ++ [j2]).filter (uvPred t.id) ≠ []
                  rw [filter_append_single_neg _ _ _
                        (by rw [hpj2]
                            exact beq_eq_false_iff_ne.mpr
                              (fun hcon => htt (beq_iff_eq.mpr hcon.symm)))]
                  exact h.busy_iff t ht
              · intro t' ht'
                obtain ⟨t, ht, rfl⟩ := List.mem_map.mp ht'
                by_cases htt : (t.id == tid) = true
                · have tid0 : t.id = tid := beq_iff_eq.mp htt
                  rw [if_pos htt]
                  show ((m.jobs ++ [j2]).filter (uvPred t.id)).length ≤ 1
                  rw [tid0,
                      filter_append_single_pos _ _ _ (by rw [hpj2]; exact beq_self_eq_true _),
                      show m.jobs.filter (uvPred tid) = [] from holdnil]
                  simp
                · rw [if_neg htt]
                  show ((m.jobs ++ [j2]).filter (uvPred t.id)).length ≤ 1
                  rw [filter_append_single_neg _ _ _
                        (by rw [hpj2]
                            exact beq_eq_false_iff_ne.mpr
                              (fun hcon => htt (beq_iff_eq.mpr hcon.symm)))]
                  exact h.uv_le_one t ht
            · -- list/describe/check-new job: no busy flag involved
              rw [if_neg huv]
              have huv' : jobIsUV ty = false := by
                cases h0 : jobIsUV ty
                · rfl
                · exact absurd h0 huv
              have hpj2f : ∀ tid', uvPred tid' j2 = false := by
                intro tid'
                show (((tid == tid') && jobIsUV ty) && true) = false
                rw [huv', Bool.and_false, Bool.false_and]
              refine ⟨?_, ?_, ?_, ?_, ?_, ?_, h.targets_nodup, ?_, ?_, ?_⟩
              · intro j hj
                rcases (hmemj j).mp hj with hj | rfl
                · exact le_trans (h.id_le j hj) (Nat.le_succ _)
                · exact le_refl _
              · intro j hj
                rcases (hmemj j).mp hj with hj | rfl
                · exact h.path_eq j hj
                · rfl
              · intro j hj
                rcases (hmemj j).mp hj with hj | rfl
                · exact h.started_eq j hj
                · rfl
              · intro j hj
                rcases (hmemj j).mp hj with hj | rfl
                · exact h.detach_eq j hj
                · rfl
              · intro j hj
                rcases (hmemj j).mp hj with hj | rfl
                · exact h.cb_inv j hj
                · exact Or.inl ⟨rfl, rfl⟩
              · show ((m.jobs ++ [j2]).map Job.id).Nodup
                rw [List.map_append, List.map_cons, List.map_nil, List.nodup_append]
                refine ⟨h.jobs_nodup, List.nodup_singleton _, ?_⟩
                intro x hx hx'
                simp only [List.mem_singleton] at hx'
                obtain ⟨j, hj, hid⟩ := List.mem_map.mp hx
                subst hx'
                exact hne j hj hid
              · intro j hj
                rcases (hmemj j).mp hj with hj | rfl
                · exact h.target_exists j hj
                · exact ⟨t0, ht0mem, ht0id⟩
              · intro t ht
                show t.busy = true ↔ (m.jobs ++ [j2]).filter (uvPred t.id) ≠ []
                rw [filter_append_single_neg _ _ _ (hpj2f t.id)]
                exact h.busy_iff t ht
              · intro t ht
                show ((m.jobs ++ [j2]).filter (uvPred t.id)).length ≤ 1
                rw [filter_append_single_neg _ _ _ (hpj2f t.id)]
                exact h.uv_le_one t ht

theorem filter_remove_eq_of_pred_ne (l : List Job) (p : Job → Bool) (id : Nat)
    (h : ∀ a ∈ l, p a = true → (a.id == id) = false) :
    (l.filter (fun a => !(a.id == id))).filter p = l.filter p := by
  induction l with
  | nil => rfl
  | cons a t ih =>
      have ih' := ih (fun x hx => h x (List.mem_cons_of_mem _ hx))
      cases hpa : p a with
      | true =>
          have hai : (a.id == id) = false := h a (List.mem_cons_self _ _) hpa
          simp [List.filter_cons, hpa, hai, ih']
      | false =>
          cases hai : (a.id == id) with
          | true => simp [List.filter_cons, hpa, hai, ih']
          | false => simp [List.filter_cons, hpa, hai, ih']

theorem filter_remove_eq_nil_of_pred_imp (l : List Job) (p : Job → Bool) (id : Nat)
    (h : ∀ a ∈ l, p a = true → (a.id == id) = true) :
    (l.filter (fun a => !(a.id == id))).filter p = [] := by
  induction l with
  | nil => rfl
  | cons a t ih =>
      have ih' := ih (fun x hx => h x (List.mem_cons_of_mem _ hx))
      cases hai : (a.id == id) with
      | true => simp [List.filter_cons, hai, ih']
      | false =>
          have hpa : p a = false := by
            cases hpa : p a with
            | false => rfl
            | true => rw [h a (List.mem_cons_self _ _) hpa] at hai; cases hai
          simp [List.filter_cons, hai, hpa, ih']

theorem inv_checkIdle (m : Manager) (h : Inv m) : Inv (manager_check_idle m) := by
  unfold manager_check_idle
  split
  · next hE =>
      have hnil : m.jobs = [] := List.isEmpty_iff.mp hE
      refine ⟨h.id_le, h.path_eq, h.started_eq, h.detach_eq, h.cb_inv, h.jobs_nodup,
              by simp, ?_, by simp, by simp⟩
      intro j hj
      rw [show ({ m with targets := [] } : Manager).jobs = m.jobs from rfl, hnil] at hj
      cases hj
  · exact h

theorem inv_childExit (m : Manager) (h : Inv m) (id : Nat) (si : SiInfo) (out : ChildOutput) :
    Inv (manager_on_exit m id si out).1 := by
  unfold manager_on_exit
  cases hf : m.findJob id with
  | none => exact h
  | some j =>
      have hjmem : j ∈ m.jobs :=
        List.mem_of_find?_eq_some
          (show m.jobs.find? (fun jj => jj.id == id) = some j from hf)
      have hpj := List.find?_some (show m.jobs.find? (fun jj => jj.id == id) = some j from hf)
      have hjid : j.id = id := beq_iff_eq.mp hpj
      have hst : j.started = true := h.started_eq j hjmem
      simp only [hst, Bool.not_true, Bool.false_eq_true, if_false]
      apply inv_checkIdle
      by_cases huv : (jobIsUV j.type) = true
      · rw [if_pos huv]
        obtain ⟨tj, htj, htjid⟩ := h.target_exists j hjmem
        have hjuv : j ∈ uvInFlightFor m j.targetId := by
          refine List.mem_filter.mpr ⟨hjmem, ?_⟩
          show ((j.targetId == j.targetId) && jobIsUV j.type && j.started) = true
          rw [beq_self_eq_true, huv, hst]
          rfl
        have hsingle : uvInFlightFor m j.targetId = [j] := by
          refine mem_singleton_of_length_le_one ?_ hjuv
          have := h.uv_le_one tj htj
          rwa [htjid] at this
        have hremnil :
            (m.jobs.filter (fun a => !(a.id == id))).filter (uvPred j.targetId) = [] := by
          refine filter_remove_eq_nil_of_pred_imp _ _ _ (fun a ha hpa => ?_)
          have hamem : a ∈ uvInFlightFor m j.targetId := List.mem_filter.mpr ⟨ha, hpa⟩
          rw [hsingle, List.mem_singleton] at hamem
          subst hamem
          exact beq_iff_eq.mpr hjid
        have hremsame : ∀ tid', tid' ≠ j.targetId →
            (m.jobs.filter (fun a => !(a.id == id))).filter (uvPred tid')
              = m.jobs.filter (uvPred tid') := by
          intro tid' htid'
          refine filter_remove_eq_of_pred_ne _ _ _ (fun a ha hpa => ?_)
          by_contra hcon
          have haid : a.id = id := by
            cases hc : (a.id == id) with
            | true => exact beq_iff_eq.mp hc
            | false => rw [hc] at hcon; exact absurd rfl hcon
          have haj : a = j :=
            List.inj_on_of_nodup_map h.jobs_nodup ha hjmem (by rw [haid, hjid])
          subst haj
          have : (a.targetId == tid') = true := by
            have hp := hpa
            unfold uvPred at hp
            exact (Bool.and_eq_true_iff.mp (Bool.and_eq_true_iff.mp hp).1).1
          exact htid' ((beq_iff_eq.mp this).symm)
        refine ⟨?_, ?_, ?_, ?_, ?_, ?_, ?_, ?_, ?_, ?_⟩
        · intro j' hj'
          exact h.id_le j' (List.mem_of_mem_filter hj')
        · intro j' hj'
          exact h.path_eq j' (List.mem_of_mem_filter hj')
        · intro j' hj'
          exact h.started_eq j' (List.mem_of_mem_filter hj')
        · intro j' hj'
          exact h.detach_eq j' (List.mem_of_mem_filter hj')
        · intro j' hj'
          exact h.cb_inv j' (List.mem_of_mem_filter hj')
        · exact h.jobs_nodup.sublist (List.Sublist.map _ (List.filter_sublist _))
        · show ((m.targets.map _).map Target.id).Nodup
          rw [List.map_map]
          have : (Target.id ∘ fun t =>
              if t.id == j.targetId then { t with busy := false } else t) = Target.id := by
            funext t
            simp only [Function.comp]
            split <;> rfl
          rw [this]
          exact h.targets_nodup
        · intro j' hj'
          obtain ⟨t, ht, hid⟩ := h.target_exists j' (List.mem_of_mem_filter hj')
          refine ⟨if t.id == j.targetId then { t with busy := false } else t,
                  List.mem_map.mpr ⟨t, ht, rfl⟩, ?_⟩
          split <;> simpa using hid
        · intro t' ht'
          obtain ⟨t, ht, rfl⟩ := List.mem_map.mp ht'
          by_cases htt : (t.id == j.targetId) = true
          · rw [if_pos htt]
            show false = true ↔
              ((m.jobs.filter (fun a => !(a.id == id))).filter (uvPred t.id) ≠ [])
            rw [beq_iff_eq.mp htt, hremnil]
            simp
          · rw [if_neg htt]
            show t.busy = true ↔
              ((m.jobs.filter (fun a => !(a.id == id))).filter (uvPred t.id) ≠ [])
            rw [hremsame t.id (fun hcon => htt (beq_iff_eq.mpr hcon))]
            exact h.busy_iff t ht
        · intro t' ht'
          obtain ⟨t, ht, rfl⟩ := List.mem_map.mp ht'
          by_cases htt : (t.id == j.targetId) = true
          · rw [if_pos htt]
            show ((m.jobs.filter (fun a => !(a.id == id))).filter (uvPred t.id)).length ≤ 1
            rw [beq_iff_eq.mp htt, hremnil]
            simp
          · rw [if_neg htt]
            show ((m.jobs.filter (fun a => !(a.id == id))).filter (uvPred t.id)).length ≤ 1
            rw [hremsame t.id (fun hcon => htt (beq_iff_eq.mpr hcon))]
            exact h.uv_le_one t ht
      · rw [if_neg huv]
        have hremsame : ∀ tid',
            (m.jobs.filter (fun a => !(a.id == id))).filter (uvPred tid')
              = m.jobs.filter (uvPred tid') := by
          intro tid'
          refine filter_remove_eq_of_pred_ne _ _ _ (fun a ha hpa => ?_)
          by_contra hcon
          have haid : a.id = id := by
            cases hc : (a.id == id) with
            | true => exact beq_iff_eq.mp hc
            | false => rw [hc] at hcon; exact absurd rfl hcon
          have haj : a = j :=
            List.inj_on_of_nodup_map h.jobs_nodup ha hjmem (by rw [haid, hjid])
          subst haj
          have : (jobIsUV a.type) = true := by
            have hp := hpa
            unfold uvPred at hp
            exact (Bool.and_eq_true_iff.mp (Bool.and_eq_true_iff.mp hp).1).2
          exact huv this
        refine ⟨?_, ?_, ?_, ?_, ?_, ?_, h.targets_nodup, ?_, ?_, ?_⟩
        · intro j' hj'
          exact h.id_le j' (List.mem_of_mem_filter hj')
        · intro j' hj'
          exact h.path_eq j' (List.mem_of_mem_filter hj')
        · intro j' hj'
          exact h.started_eq j' (List.mem_of_mem_filter hj')
        · intro j' hj'
          exact h.detach_eq j' (List.mem_of_mem_filter hj')
        · intro j' hj'
          exact h.cb_inv j' (List.mem_of_mem_filter hj')
        · exact h.jobs_nodup.sublist (List.Sublist.map _ (List.filter_sublist _))
        · intro j' hj'
          exact h.target_exists j' (List.mem_of_mem_filter hj')
        · intro t ht
          show t.busy = true ↔
            ((m.jobs.filter (fun a => !(a.id == id))).filter (uvPred t.id) ≠ [])
          rw [hremsame t.id]
          exact h.busy_iff t ht
        · intro t ht
          show ((m.jobs.filter (fun a => !(a.id == id))).filter (uvPred t.id)).length ≤ 1
          rw [hremsame t.id]
          exact h.uv_le_one t ht

theorem inv_cancel (m : Manager) (h : Inv m) (id : Nat) :
    Inv (manager_cancel m id) := by
  unfold manager_cancel
  cases hf : m.findJob id with
  | none => exact h
  | some j =>
      by_cases hs : (!j.started) = true
      · simp only [hs, if_true]
        exact h
      · simp only [hs, Bool.false_eq_true, if_false]
        refine inv_updateJob m id _ h (fun j => rfl) (fun j => rfl) (fun j => rfl)
          (fun j => rfl) (fun j => rfl) (fun j => rfl) ?_
        intro j _ hold _
        simpa [job_cancel] using hold

theorem inv_step (m : Manager) (h : Inv m) (e : Event) : Inv (step m e) := by
  cases e with
  | addTarget cls nm pth => exact inv_addTarget m h cls nm pth
  | startJob ty tid offline version spawnOk =>
      exact inv_startJob m h ty tid offline version spawnOk
  | notify id d => exact inv_notify m h id d
  | cancel id => exact inv_cancel m h id
  | childExit id si out => exact inv_childExit m h id si out

theorem inv_foldl (m : Manager) (h : Inv m) (es : List Event) : Inv (es.foldl step m) := by
  induction es generalizing m with
  | nil => exact h
  | cons e es ih => exact ih _ (inv_step m h e)

/-- Every reachable daemon state satisfies the invariant. -/
theorem inv_run (es : List Event) : Inv (run es) := inv_foldl _ inv_init es

theorem job_start_lastJobId (m : Manager) (id : Nat) (s : Bool) (m2 : Manager)
    (h : job_start m id s = .ok m2) : m2.lastJobId = m.lastJobId := by
  unfold job_start at h
  cases hf : m.findJob id with
  | none => rw [hf] at h; cases h
  | some j =>
      rw [hf] at h
      dsimp only at h
      cases hft : m.findTarget j.targetId with
      | none => rw [hft] at h; cases h
      | some t =>
          rw [hft] at h
          dsimp only at h
          split at h
          · cases h
          · split at h
            · cases h
            · cases h
              split <;> rfl

theorem method_start_job_lastJobId (m : Manager) (ty : JobType) (tid : String)
    (offline : Bool) (version : Option String) (spawnOk : Bool) :
    (method_start_job m ty tid offline version spawnOk).1.lastJobId
      = (match m.findTarget tid with
         | none => m.lastJobId
         | some _ => m.lastJobId + 1) := by
  unfold method_start_job
  cases hft : m.findTarget tid with
  | none => rfl
  | some t0 =>
      dsimp only
      split
      · rfl
      · next m2 hjs =>
          rw [job_start_lastJobId _ _ _ _ hjs]
          rfl

theorem notify_lastJobId (m : Manager) (id : Nat) (d : Datagram) :
    (manager_on_notify m id d).lastJobId = m.lastJobId := by
  unfold manager_on_notify
  rcases d with ⟨dv, dp, de, dr⟩
  cases m.findJob id with
  | none => rfl
  | some j =>
      cases hs : j.started with
      | false => simp [hs]
      | true =>
          simp only [hs, Bool.not_true, Bool.false_eq_true, if_false]
          cases dv <;> cases dp <;> cases de <;> cases dr <;> rfl

theorem cancel_lastJobId (m : Manager) (id : Nat) :
    (manager_cancel m id).lastJobId = m.lastJobId := by
  unfold manager_cancel
  cases m.findJob id with
  | none => rfl
  | some j =>
      cases hs : j.started with
      | false => simp [hs]
      | true => simp only [hs, Bool.not_true, Bool.false_eq_true, if_false]; rfl

theorem exit_lastJobId (m : Manager) (id : Nat) (si : SiInfo) (out : ChildOutput) :
    (manager_on_exit m id si out).1.lastJobId = m.lastJobId := by
  unfold manager_on_exit manager_check_idle
  cases m.findJob id with
  | none => rfl
  | some j =>
      cases hs : j.started with
      | false => simp [hs]
      | true =>
          simp only [hs, Bool.not_true, Bool.false_eq_true, if_false]
          split <;> split <;> rfl

theorem lastJobId_le_step (m : Manager) (e : Event) : m.lastJobId ≤ (step m e).lastJobId := by
  cases e with
  | addTarget cls nm pth =>
      show m.lastJobId ≤
        (match target_new m cls nm pth with | .error _ => m | .ok (m1, _) => m1).lastJobId
      unfold target_new
      dsimp only
      by_cases hdup : (m.targets.any fun t0 => t0.id == target_id cls nm) = true
      · rw [if_pos hdup]
      · rw [if_neg hdup]
  | startJob ty tid offline version spawnOk =>
      show m.lastJobId ≤ (method_start_job m ty tid offline version spawnOk).1.lastJobId
      rw [method_start_job_lastJobId]
      cases m.findTarget tid
      · exact Nat.le.refl
      · exact Nat.le_succ _
  | notify id d =>
      exact le_of_eq (notify_lastJobId m id d).symm
  | cancel id =>
      exact le_of_eq (cancel_lastJobId m id).symm
  | childExit id si out =>
      exact le_of_eq (exit_lastJobId m id si out).symm

/-- The job ids handed out by `job_new` during one event (only the five
job-creating bus methods allocate ids, and only after the target lookup). -/
def stepIssued (m : Manager) (e : Event) : List Nat :=
  match e with
  | .startJob _ tid _ _ _ =>
      match m.findTarget tid with
      | none => []
      | some _ => [m.lastJobId + 1]
  | _ => []

/-- All job ids allocated while running the events from state `m`. -/
def issuedFrom (m : Manager) : List Event → List Nat
  | [] => []
  | e :: es => stepIssued m e ++ issuedFrom (step m e) es

/-- All job ids allocated across a daemon lifetime. -/
def issuedIds (es : List Event) : List Nat := issuedFrom Manager.init es

theorem issuedFrom_lt (m : Manager) (es : List Event) :
    ∀ x ∈ issuedFrom m es, m.lastJobId < x := by
  induction es generalizing m with
  | nil => intro x hx; cases hx
  | cons e es ih =>
      intro x hx
      rw [issuedFrom] at hx
      rcases List.mem_append.mp hx with hx | hx
      · unfold stepIssued at hx
        cases e with
        | startJob ty tid offline version spawnOk =>
            dsimp only at hx
            cases hft : m.findTarget tid with
            | none => rw [hft] at hx; cases hx
            | some _ =>
                rw [hft] at hx
                simp only [List.mem_singleton] at hx
                subst hx
                exact Nat.lt_succ_of_le (le_refl _)
        | addTarget cls nm pth => dsimp only at hx; cases hx
        | notify id d => dsimp only at hx; cases hx
        | cancel id => dsimp only at hx; cases hx
        | childExit id si out => dsimp only at hx; cases hx
      · exact lt_of_le_of_lt (lastJobId_le_step m e) (ih (step m e) x hx)

theorem issuedFrom_chain (m : Manager) (es : List Event) :
    List.Chain' (· < ·) (issuedFrom m es) := by
  induction es generalizing m with
  | nil => exact List.chain'_nil
  | cons e es ih =>
      rw [issuedFrom]
      have hrest := ih (step m e)
      cases e with
      | startJob ty tid offline version spawnOk =>
          unfold stepIssued
          dsimp only
          cases hft : m.findTarget tid with
          | none => simpa using hrest
          | some t0 =>
              simp only [List.singleton_append]
              refine List.chain'_cons'.mpr ⟨?_, hrest⟩
              intro y hy
              have hymem :
                  y ∈ issuedFrom (step m (.startJob ty tid offline version spawnOk)) es :=
                List.mem_of_mem_head? hy
              have hlt := issuedFrom_lt (step m (.startJob ty tid offline version spawnOk)) es y hymem
              have hstep :
                  (step m (Event.startJob ty tid offline version spawnOk)).lastJobId
                    = m.lastJobId + 1 := by
                show (method_start_job m ty tid offline version spawnOk).1.lastJobId
                  = m.lastJobId + 1
                rw [method_start_job_lastJobId, hft]
              rw [hstep] at hlt
              exact hlt
      | addTarget cls nm pth => simpa using hrest
      | notify id d => simpa using hrest
      | cancel id => simpa using hrest
      | childExit id si out => simpa using hrest

theorem find?_of_mem_nodup (l : List Target) (hnd : (l.map Target.id).Nodup) (t : Target)
    (ht : t ∈ l) : l.find? (fun t0 => t0.id == t.id) = some t := by
  induction l with
  | nil => cases ht
  | cons a l ih =>
      rcases List.mem_cons.mp ht with rfl | ht
      · simp [List.find?]
      · have hnd' : ((a :: l).map Target.id).Nodup := hnd
        rw [List.map_cons, List.nodup_cons] at hnd'
        have hne : a.id ≠ t.id := by
          intro hcon
          exact hnd'.1 (hcon ▸ List.mem_map.mpr ⟨t, ht, rfl⟩)
        rw [List.find?]
        rw [show (a.id == t.id) = false from beq_eq_false_iff_ne.mpr hne]
        exact ih hnd'.2 ht

/-- A trace used by several witnesses: the host target is enumerated and an
`Update("", 0)` RPC starts job 1. -/
def updateTrace : List Event :=
  [.addTarget .host "host" "sysupdate.d",
   .startJob .update "host" false none true]

/-- A trace used by several witnesses: the host target is enumerated and a
`List(0)` RPC starts job 1. -/
def listTrace : List Event :=
  [.addTarget .host "host" "sysupdate.d",
   .startJob .list "host" false none true]

/-- The busy host target reached by `updateTrace`. -/
def busyHostTarget : Target :=
  { id := "host", cls := .host, name := "host", path := "sysupdate.d",
    imageType := none, busy := true }

/-- The running list job reached by `listTrace`. -/
def runningListJob : Job :=
  { id := 1, objectPath := job_object_path 1, type := .list, offline := false,
    version := none, progressPercent := 0, statusErrno := 0, nCancelled := 0,
    targetId := "host", started := true, hasDbusMsg := true,
    completeCb := some .listFinish, detachCb := false }

/-- C1: per-target mutual exclusion of update and vacuum.  In every
reachable state, each target has at most one in-flight update-or-vacuum
job, its busy flag is set exactly when such a job exists, and starting
another update or vacuum job on a busy target fails with `-EBUSY`. -/
theorem C1_per_target_mutual_exclusion (es : List Event) (t : Target)
    (ht : t ∈ (run es).targets) :
    (uvInFlightFor (run es) t.id).length ≤ 1
    ∧ (t.busy = true ↔ uvInFlightFor (run es) t.id ≠ [])
    ∧ (∀ ty offline version spawnOk, jobIsUV ty = true → t.busy = true →
        (method_start_job (run es) ty t.id offline version spawnOk).2
          = .error (-EBUSY)) := by
  have hinv := inv_run es
  refine ⟨hinv.uv_le_one t ht, hinv.busy_iff t ht, ?_⟩
  intro ty offline version spawnOk huv hbusy
  have hft : (run es).findTarget t.id = some t :=
    find?_of_mem_nodup _ hinv.targets_nodup t ht
  rw [method_start_job_eq (run es) hinv t.id t hft ty offline version spawnOk]
  rw [if_pos (by rw [huv, hbusy]; rfl)]

/-- C1 witness: after `Update` starts job 1 on the host target, the target
is busy with exactly that one in-flight update job, and a second update
request fails with `-EBUSY`. -/
theorem C1_per_target_mutual_exclusion_witness :
    busyHostTarget ∈ (run updateTrace).targets
    ∧ ((uvInFlightFor (run updateTrace) busyHostTarget.id).length ≤ 1
       ∧ (busyHostTarget.busy = true ↔ uvInFlightFor (run updateTrace) busyHostTarget.id ≠ [])
       ∧ (∀ ty offline version spawnOk, jobIsUV ty = true → busyHostTarget.busy = true →
           (method_start_job (run updateTrace) ty busyHostTarget.id offline version spawnOk).2
             = .error (-EBUSY))) :=
  ⟨by decide, C1_per_target_mutual_exclusion updateTrace busyHostTarget (by decide)⟩

/-- C6: job ids are strictly monotonic and never reused across a daemon
lifetime; `job_new` allocates `last_job_id + 1` (so the first id is 1),
and every registered job has `id ≤ last_job_id` and an object path ending
in `_<id>`. -/
theorem C6_job_ids_monotonic (es : List Event) (ty : JobType) (tid : String)
    (cb : CompleteCb) (j : Job) (hj : j ∈ (run es).jobs) :
    List.Chain' (· < ·) (issuedIds es)
    ∧ (job_new (run es) ty tid cb).2.id = (run es).lastJobId + 1
    ∧ (job_new Manager.init ty tid cb).2.id = 1
    ∧ j.id ≤ (run es).lastJobId
    ∧ j.objectPath = "/org/freedesktop/sysupdate1/job/" ++ ("_" ++ toString j.id) := by
  have hinv := inv_run es
  refine ⟨issuedFrom_chain _ _, rfl, rfl, hinv.id_le j hj, ?_⟩
  rw [hinv.path_eq j hj]
  unfold job_object_path
  rw [← String.append_assoc]
  rfl

/-- C6 witness: in the concrete `listTrace` run the issued ids ascend, the
next id would be 2, and job 1 carries the path `/…/job/_1`. -/
theorem C6_job_ids_monotonic_witness :
    runningListJob ∈ (run listTrace).jobs
    ∧ (List.Chain' (· < ·) (issuedIds listTrace)
       ∧ (job_new (run listTrace) .list "host" .listFinish).2.id = (run listTrace).lastJobId + 1
       ∧ (job_new Manager.init .list "host" .listFinish).2.id = 1
       ∧ runningListJob.id ≤ (run listTrace).lastJobId
       ∧ runningListJob.objectPath
           = "/org/freedesktop/sysupdate1/job/" ++ ("_" ++ toString runningListJob.id)) :=
  ⟨by decide,
   C6_job_ids_monotonic listTrace .list "host" .listFinish runningListJob (by decide)⟩

/-- C2: the code does NOT drop a discovered image target whose worker
`components` query reports no default component — `target_new` has already
inserted it into the registry, the loop body holds a plain pointer, and
the no-default branch only logs "Skipping …" and continues.  Enumerating
one machine image with `default = false` completes successfully with the
target still registered. -/
theorem C2_no_default_target_not_dropped :
    manager_enumerate_image_class Manager.init .machine
        [{ name := "img0", path := "/var/lib/machines/img0", itype := .directory,
           isHost := false, query := .ok false }]
      = .ok { lastJobId := 0, jobs := [],
              targets := [{ id := "machine:img0", cls := .machine, name := "img0",
                            path := "/var/lib/machines/img0",
                            imageType := some .directory, busy := false }] } := rfl

/-- C4: a worker that exits 0 with a zero-byte stdout is accepted by
`job_parse_child_output` as a null document, but the completion
callbacks `assert(json)`: for a list job the child-exit path hits the
assert and aborts before any reply is sent. -/
theorem C4_null_document_assert_fails :
    job_parse_child_output .empty = .ok none
    ∧ target_method_list_finish none = .assertFailed
    ∧ target_method_describe_finish none = .assertFailed
    ∧ target_method_check_new_finish none = .assertFailed
    ∧ target_method_vacuum_finish none = .assertFailed
    ∧ (manager_on_exit (run listTrace) 1 ⟨.exited, 0⟩ .empty).2
        = some { jobRemoved := none, reply := none, aborted := true } :=
  ⟨rfl, rfl, rfl, rfl, rfl, by decide⟩

/-- C9 counterexample: the vacuum completion callback does not fail when
the key `"removed"` is absent — `sd_json_variant_unsigned` of the missing
key is 0 and the callback replies success with 0. -/
theorem C9_counterexample :
    target_method_vacuum_finish (some (.obj [])) = .replied (.uint 0) := rfl

/-- C9 amended: required-key extraction is a hard error in the list
callback (`-EINVAL` when `"all"` is absent), but the vacuum callback
treats a missing `"removed"` as 0 and replies success. -/
theorem C9_required_key_extraction (d : Json)
    (hrm : sd_json_variant_by_key d "removed" = none)
    (hall : sd_json_variant_by_key d "all" = none) :
    target_method_vacuum_finish (some d) = .replied (.uint 0)
    ∧ target_method_list_finish (some d) = .failed (-EINVAL) := by
  constructor
  · unfold target_method_vacuum_finish
    dsimp only
    rw [hrm]
    rfl
  · unfold target_method_list_finish
    dsimp only
    rw [hall]

/-- C9 witness: the empty object document. -/
theorem C9_required_key_extraction_witness :
    sd_json_variant_by_key (.obj []) "removed" = none
    ∧ (target_method_vacuum_finish (some (.obj [])) = .replied (.uint 0)
       ∧ target_method_list_finish (some (.obj [])) = .failed (-EINVAL)) :=
  ⟨rfl, C9_required_key_extraction (.obj []) rfl rfl⟩

/-- C7: `job_on_progress` accepts exactly the parseable integers in
[0,100] (100 accepted, 101 rejected, unparseable rejected): on acceptance
it sets the job's progress and emits a `Progress` property change on the
job's object path, on rejection the job is unchanged and nothing is
emitted. -/
theorem C7_progress_range (j : Job) (buf : String) :
    (∀ n, safe_atou buf = some n → n ≤ 100 →
        job_on_progress j buf = ({ j with progressPercent := n }, some j.objectPath))
    ∧ (∀ n, safe_atou buf = some n → 100 < n → job_on_progress j buf = (j, none))
    ∧ (safe_atou buf = none → job_on_progress j buf = (j, none))
    ∧ safe_atou "100" = some 100
    ∧ safe_atou "101" = some 101 := by
  refine ⟨?_, ?_, ?_, by decide, by decide⟩
  · intro n hn hle
    unfold job_on_progress
    rw [hn]
    dsimp only
    rw [if_neg (by omega)]
  · intro n hn hgt
    unfold job_on_progress
    rw [hn]
    dsimp only
    rw [if_pos hgt]
  · intro hn
    unfold job_on_progress
    rw [hn]

/-- C7 witness: progress 100 is applied and emitted, 101 and garbage are
ignored. -/
theorem C7_progress_range_witness :
    job_on_progress runningListJob "100"
      = ({ runningListJob with progressPercent := 100 }, some runningListJob.objectPath)
    ∧ job_on_progress runningListJob "101" = (runningListJob, none)
    ∧ job_on_progress runningListJob "7x" = (runningListJob, none) :=
  ⟨(C7_progress_range runningListJob "100").1 100 (by decide) (by decide),
   (C7_progress_range runningListJob "101").2.1 101 (by decide) (by decide),
   (C7_progress_range runningListJob "7x").2.2.1 (by decide)⟩

theorem cancelSignals_elem (j : Job) (n k : Nat) (hk : k < n) :
    (cancelSignals j n)[k]? = some (if j.nCancelled + k < 3 then SIGTERM else SIGKILL) := by
  induction n generalizing j k with
  | zero => cases hk
  | succ n ih =>
      cases k with
      | zero =>
          unfold cancelSignals job_cancel
          simp
      | succ k =>
          unfold cancelSignals
          rw [List.getElem?_cons_succ]
          rw [ih (job_cancel j).1 k (Nat.lt_of_succ_lt_succ hk)]
          unfold job_cancel
          have : j.nCancelled + 1 + k = j.nCancelled + (k + 1) := by omega
          rw [show ((({ j with nCancelled := j.nCancelled + 1 },
                       if j.nCancelled < 3 then SIGTERM else SIGKILL) :
                      Job × Nat)).1.nCancelled = j.nCancelled + 1 from rfl, this]

/-- C8: for a fresh job, the k-th cancellation (0-indexed) sends SIGTERM
for the first three requests and SIGKILL from the fourth on, and every
cancellation bumps the counter by one. -/
theorem C8_cancel_escalation (j : Job) (h0 : j.nCancelled = 0) (n k : Nat) (hk : k < n) :
    (cancelSignals j n)[k]? = some (if k < 3 then SIGTERM else SIGKILL)
    ∧ (job_cancel j).2 = SIGTERM
    ∧ (∀ j' : Job, (job_cancel j').1.nCancelled = j'.nCancelled + 1) := by
  refine ⟨?_, ?_, fun j' => rfl⟩
  · rw [cancelSignals_elem j n k hk, h0]
    simp
  · unfold job_cancel
    rw [if_pos (by omega)]

/-- C8 witness: five cancellations of a fresh job produce
TERM, TERM, TERM, KILL, KILL. -/
theorem C8_cancel_escalation_witness :
    cancelSignals runningListJob 5 = [SIGTERM, SIGTERM, SIGTERM, SIGKILL, SIGKILL]
    ∧ ((cancelSignals runningListJob 5)[3]? = some (if 3 < 3 then SIGTERM else SIGKILL)
       ∧ (job_cancel runningListJob).2 = SIGTERM
       ∧ (∀ j' : Job, (job_cancel j').1.nCancelled = j'.nCancelled + 1)) :=
  ⟨by decide, C8_cancel_escalation runningListJob (by decide) 5 3 (by decide)⟩

/-- C10: a job without a detach callback — every job type except update —
is left entirely unchanged by a READY=1 notification: `job_on_ready`
returns the job as-is (message and completion callback retained) and
sends no reply. -/
theorem C10_ready_noop_for_non_update (es : List Event) (j : Job)
    (hj : j ∈ (run es).jobs) (hty : j.type ≠ .update) :
    j.detachCb = false ∧ job_on_ready j = (j, .ignored) := by
  have hinv := inv_run es
  have hdet : j.detachCb = false := by
    rw [hinv.detach_eq j hj]
    unfold job_detach_cb
    exact beq_eq_false_iff_ne.mpr hty
  refine ⟨hdet, ?_⟩
  unfold job_on_ready
  rw [hdet]
  rfl

/-- C10 witness: the running list job of `listTrace` ignores READY=1. -/
theorem C10_ready_noop_for_non_update_witness :
    runningListJob ∈ (run listTrace).jobs
    ∧ (runningListJob.detachCb = false
       ∧ job_on_ready runningListJob = (runningListJob, .ignored)) :=
  ⟨by decide,
   C10_ready_noop_for_non_update listTrace runningListJob (by decide) (by decide)⟩

/-- A detached-update trace: the host target is enumerated, `Update("",0)`
starts job 1, and the worker signals READY=1 (detaching the job). -/
def detachedTrace : List Event :=
  [.addTarget .host "host" "sysupdate.d",
   .startJob .update "host" false none true,
   .notify 1 { version := none, progress := none, errnoStr := none, ready := true }]

/-- C5 counterexample: a detached update job whose worker is killed by
SIGTERM (signal 15) with no worker-reported errno gets
`JobRemoved(1, path, 15)` — the raw positive `si_status`, not the
negative signal value the claim describes. -/
theorem C5_counterexample :
    (manager_on_exit (run detachedTrace) 1 ⟨.killed, 15⟩ .empty).2
      = some { jobRemoved := some (1, "/org/freedesktop/sysupdate1/job/_1", 15),
               reply := none, aborted := false }
    ∧ (15 : Int) ≠ -15 := by
  constructor
  · decide
  · decide

/-- C5 amended: for every detached job, child exit emits `JobRemoved`
carrying `(id, object_path, status)` where status is `-errno` when a
worker-reported errno is set, and otherwise the raw `si_status` — the
exit code when the child exited normally, or the killing signal as a
positive number. -/
theorem C5_job_removed_status (j : Job) (hdet : j.detachCb = true)
    (si : SiInfo) (out : ChildOutput) :
    (job_on_exit_effects j si out).jobRemoved
      = some (j.id, j.objectPath,
              if j.statusErrno ≠ 0 then -(j.statusErrno : Int) else (si.status : Int)) := by
  show (if j.detachCb then some (j.id, j.objectPath, job_removed_status j si) else none) = _
  rw [hdet]
  unfold job_removed_status
  rfl

/-- A detached update job with worker-reported errno 5 (message already
replied to, completion callback cleared). -/
def detachedErrnoJob : Job :=
  { runningListJob with
    type := .update
    detachCb := true
    hasDbusMsg := false
    completeCb := none
    statusErrno := 5 }

/-- C5 witness: a detached update job with errno 5 killed by SIGKILL gets
status -5. -/
theorem C5_job_removed_status_witness :
    detachedErrnoJob.detachCb = true
    ∧ (job_on_exit_effects detachedErrnoJob ⟨.killed, 9⟩ .empty).jobRemoved
        = some (detachedErrnoJob.id, detachedErrnoJob.objectPath,
                if detachedErrnoJob.statusErrno ≠ 0 then -(detachedErrnoJob.statusErrno : Int)
                else ((9 : Nat) : Int)) :=
  ⟨rfl, C5_job_removed_status detachedErrnoJob rfl ⟨.killed, 9⟩ .empty⟩

/-- C3 counterexample: an update job whose worker never signaled readiness
(the RPC was never detached) exits 0 — the code still emits `JobRemoved`
for it, because the detach callback is set, while also sending the one
error reply. -/
theorem C3_counterexample :
    (manager_on_exit (run updateTrace) 1 ⟨.exited, 0⟩ (.document (.obj []))).2
      = some { jobRemoved := some (1, "/org/freedesktop/sysupdate1/job/_1", 0),
               reply := some .cbError, aborted := false } := by
  decide

theorem runCompleteCb_some_ne_assert (cb : CompleteCb) (v : Json) :
    runCompleteCb cb (some v) ≠ .assertFailed := by
  cases cb with
  | listFinish =>
      unfold runCompleteCb target_method_list_finish
      dsimp only
      split
      · intro h; cases h
      · split
        · intro h; cases h
        · intro h; cases h
  | describeFinish =>
      unfold runCompleteCb target_method_describe_finish
      intro h; cases h
  | checkNewFinish =>
      unfold runCompleteCb target_method_check_new_finish
      dsimp only
      split
      · intro h; cases h
      · split
        · intro h; cases h
        · split
          · intro h; cases h
          · intro h; cases h
  | updateFinishedEarly =>
      unfold runCompleteCb target_method_update_finished_early
      intro h; cases h
  | vacuumFinish =>
      unfold runCompleteCb target_method_vacuum_finish
      intro h; cases h

theorem job_exit_error_not_exited (j : Job) (si : SiInfo) (out : ChildOutput)
    (h : si.code ≠ .exited) :
    job_exit_error j si out = (some (.signal si.status), none) := by
  unfold job_exit_error
  rw [if_pos h]

theorem job_exit_error_failed (j : Job) (si : SiInfo) (out : ChildOutput)
    (h1 : si.code = .exited) (h2 : si.status ≠ 0) :
    job_exit_error j si out
      = (some (if j.statusErrno ≠ 0 then .errno j.statusErrno else .exitCode si.status),
         none) := by
  unfold job_exit_error
  rw [if_neg (by simp [h1]), if_pos h2]
  split
  · rfl
  · rfl

theorem job_exit_error_success (j : Job) (si : SiInfo) (out : ChildOutput)
    (h1 : si.code = .exited) (h2 : si.status = 0) :
    job_exit_error j si out
      = (match job_parse_child_output out with
         | .error e => (some (.parseFailure e), none)
         | .ok doc => (none, doc)) := by
  unfold job_exit_error
  rw [if_neg (by simp [h1]), if_neg (by simp [h2])]

/-- C3 amended: for every RPC whose job has no detach callback (every verb
except update), child exit emits no `JobRemoved` and sends exactly one
reply — success or error — provided the worker did not exit 0 with empty
stdout (in that excluded case the callback's null-document assert aborts
before replying; update jobs, by contrast, emit `JobRemoved` at exit even
when never detached, as the counterexample shows). -/
theorem C3_one_reply_no_signal (es : List Event) (id : Nat) (si : SiInfo)
    (out : ChildOutput) (j : Job)
    (hj : (run es).findJob id = some j) (hty : j.type ≠ .update)
    (hne : ¬(si.code = .exited ∧ si.status = 0 ∧ out = .empty)) :
    (manager_on_exit (run es) id si out).2 = some (job_on_exit_effects j si out)
    ∧ (job_on_exit_effects j si out).jobRemoved = none
    ∧ (∃ r, (job_on_exit_effects j si out).reply = some r)
    ∧ (job_on_exit_effects j si out).aborted = false := by
  have hinv := inv_run es
  have hjmem : j ∈ (run es).jobs :=
    List.mem_of_find?_eq_some
      (show (run es).jobs.find? (fun jj => jj.id == id) = some j from hj)
  have hst : j.started = true := hinv.started_eq j hjmem
  have hdet : j.detachCb = false := by
    rw [hinv.detach_eq j hjmem]
    unfold job_detach_cb
    exact beq_eq_false_iff_ne.mpr hty
  have hcb : j.hasDbusMsg = true ∧ j.completeCb = some (job_complete_cb j.type) := by
    rcases hinv.cb_inv j hjmem with h | h
    · exact h
    · exact absurd h.1 hty
  have hfirst : (manager_on_exit (run es) id si out).2
      = some (job_on_exit_effects j si out) := by
    unfold manager_on_exit
    rw [hj]
    simp only [hst, Bool.not_true, Bool.false_eq_true, if_false]
  have hreply : (∃ r, (job_exit_reply j si out).1 = some r)
      ∧ (job_exit_reply j si out).2 = false := by
    unfold job_exit_reply
    rw [hcb.1, hcb.2]
    dsimp only
    by_cases hex : si.code = .exited
    · by_cases hze : si.status = 0
      · cases out with
        | empty => exact absurd ⟨hex, hze, rfl⟩ hne
        | document v =>
            rw [job_exit_error_success j si _ hex hze]
            dsimp only [job_parse_child_output]
            cases hrc : runCompleteCb (job_complete_cb j.type) (some v) with
            | replied r => exact ⟨⟨.cbSuccess r, rfl⟩, rfl⟩
            | failedNamed nm => exact ⟨⟨.cbError, rfl⟩, rfl⟩
            | failed e => exact ⟨⟨.cbError, rfl⟩, rfl⟩
            | assertFailed =>
                exact absurd hrc (runCompleteCb_some_ne_assert (job_complete_cb j.type) v)
        | unparseable e =>
            rw [job_exit_error_success j si _ hex hze]
            exact ⟨⟨.methodError (.parseFailure e), rfl⟩, rfl⟩
      · rw [job_exit_error_failed j si out hex hze]
        exact ⟨⟨.methodError _, rfl⟩, rfl⟩
    · rw [job_exit_error_not_exited j si out hex]
      exact ⟨⟨.methodError _, rfl⟩, rfl⟩
  refine ⟨hfirst, ?_, hreply.1, hreply.2⟩
  show (if j.detachCb then some (j.id, j.objectPath, job_removed_status j si) else none) = none
  rw [hdet]
  rfl

/-- C3 witness: the list job of `listTrace` exits 0 with document `{}` —
no `JobRemoved`, exactly one reply (the missing-"all" error), no abort. -/
theorem C3_one_reply_no_signal_witness :
    (run listTrace).findJob 1 = some runningListJob
    ∧ runningListJob.type ≠ .update
    ∧ ¬((SiCode.exited = .exited) ∧ (0 : Nat) = 0 ∧ ChildOutput.document (.obj []) = .empty)
    ∧ ((manager_on_exit (run listTrace) 1 ⟨.exited, 0⟩ (.document (.obj []))).2
         = some (job_on_exit_effects runningListJob ⟨.exited, 0⟩ (.document (.obj [])))
       ∧ (job_on_exit_effects runningListJob ⟨.exited, 0⟩ (.document (.obj []))).jobRemoved = none
       ∧ (∃ r, (job_on_exit_effects runningListJob ⟨.exited, 0⟩ (.document (.obj []))).reply = some r)
       ∧ (job_on_exit_effects runningListJob ⟨.exited, 0⟩ (.document (.obj []))).aborted = false) :=
  ⟨by decide, by decide, fun h => ChildOutput.noConfusion h.2.2,
   C3_one_reply_no_signal listTrace 1 ⟨.exited, 0⟩ (.document (.obj [])) runningListJob
     (by decide) (by decide) (fun h => ChildOutput.noConfusion h.2.2)⟩

end Sysupdated
